import Mathlib

/-!
Verification of the fastapi-datatables request-to-query compiler.

This file shallowly embeds the repository's pipeline:
  - `datatables/core.py` (`DataTables.get_filtered_query`, `DataTables.apply_ordering`,
    `DataTables.process`),
  - `src/datatables/utils.py` (`build_condition`, `resolve_column`, `apply_joins`,
    `global_filter`, `column_filter`, `order_column`),
  - `datatables/schema.py` (`DataTablesRequest` defaults).

Python strings are embedded as `List Char` (`Str`), SQLAlchemy `Select` statements as an
explicit `Stmt` record of joins / where-clauses / order-by terms / offset / limit, and the
ORM's reflection (`getattr`, `relationship.property.mapper.class_`, column `type`) as
lookups in a schema environment `Env`.  SQLAlchemy's `aliased(...)` creates a fresh object
on every call; alias identity is embedded as a natural-number counter threaded through one
`process` call.  Python exceptions are embedded as `Except DTError`; an `AttributeError`
escaping a resolution step is `Option.none` at the `resolve_column` level, which callers
turn into `DTError.invalidColumn` exactly where the Python code raises
`InvalidColumnError`.
-/

set_option maxHeartbeats 1000000

namespace FastapiDatatables

/-- Embedding of Python `str`: a list of characters. -/
abbrev Str := List Char

/-- Convenience conversion from Lean string literals to `Str`. -/
def str (s : String) : Str := s.data

/-- Python `str.strip()`: remove whitespace at both ends. -/
def pyStrip (s : Str) : Str :=
  ((s.dropWhile Char.isWhitespace).reverse.dropWhile Char.isWhitespace).reverse

/-- Python `value.split("T")[0]`: everything before the first `T` (the whole string if
there is no `T`).  Used by `build_condition` for temporal columns. -/
def pyBeforeT (s : Str) : Str := s.takeWhile (fun c => c != 'T')

/-- Value of a nonempty all-digit string. -/
def digitsVal (s : Str) : Option Nat :=
  if s ≠ [] ∧ s.all Char.isDigit then
    some (s.foldl (fun n c => n * 10 + (c.toNat - '0'.toNat)) 0)
  else none

/-- Embedding of Python `int(value)` on strings: surrounding whitespace and an optional
sign are accepted, otherwise the text must be all digits.  (CPython additionally accepts
digit-group underscores and non-ASCII digits; those inputs are not modelled.)  `none`
embeds the `ValueError` that `build_condition` catches and turns into "no condition". -/
def pyInt (s : Str) : Option Int :=
  match pyStrip s with
  | '-' :: ds => (digitsVal ds).map (fun n => -(n : Int))
  | '+' :: ds => (digitsVal ds).map (fun n => (n : Int))
  | ds => (digitsVal ds).map (fun n => (n : Int))

/-- Embedding of Python `column_path.split(sep)` for a one-character separator.
Always returns a nonempty list of separator-free segments. -/
def splitOnChar (sep : Char) : Str → List Str
  | [] => [[]]
  | c :: cs =>
    let r := splitOnChar sep cs
    if c = sep then [] :: r
    else (c :: r.headD []) :: r.tail

/-- Embedding of Python `sep.join(parts)` for a one-character separator: the inverse of
`splitOnChar` on its image. -/
def joinChar (sep : Char) : List Str → Str
  | [] => []
  | [g] => g
  | g :: g' :: gs => g ++ sep :: joinChar sep (g' :: gs)

/-- Last element of a list of segments (`[]` for the empty list). -/
def lastSeg : List Str → Str
  | [] => []
  | [g] => g
  | _ :: g' :: gs => lastSeg (g' :: gs)

/-- Last dotted segment of a path string. -/
def lastSegOf (path : Str) : Str := lastSeg (splitOnChar '.' path)

/-- First-match association-list lookup, embedding Python `dict` access for the
insertion-ordered dictionaries (`joins`, `aliased_models`, request `search`). -/
def alookup {β : Type} (k : Str) : List (Str × β) → Option β
  | [] => none
  | (k', v) :: rest => if k' = k then some v else alookup k rest

/-- The coarse category of a mapped column's SQL type, derived from the `isinstance`
dispatch in `build_condition` / `get_filtered_query`: `(String, Text)` is `text`,
`Integer` is `integer`, `(DateTime, Date, TIMESTAMP)` is `temporal`, and everything else
(including hybrid properties, whose `.type` access raises `AttributeError`) is
`unsupported`. -/
inductive ColKind where
  | text
  | integer
  | temporal
  | unsupported
deriving DecidableEq, Repr

/-- The `MatchMode` enumeration of `src/datatables/enum.py`. -/
inductive MatchMode where
  | contains
  | equals
  | startsWith
  | endsWith
  | notContains
  | notEquals
deriving DecidableEq, Repr

/-- A resolved column attribute: the (possibly aliased) owning entity, the attribute
name, and its value kind.  `ownerAliasId = none` means the attribute lives on the root
model itself rather than on an `aliased(...)` object. -/
structure ColumnAttr where
  ownerModel : Str
  ownerAliasId : Option Nat
  name : Str
  kind : ColKind
deriving DecidableEq, Repr

/-- A recorded `(relation_attr, aliased_model)` pair: `stmt.join(aliased_model,
relation_attr)` joins the target entity under a fresh alias through the named
relationship of the (possibly aliased) source entity. -/
structure Join where
  srcModel : Str
  srcAliasId : Option Nat
  rel : Str
  target : Str
  aliasId : Nat
deriving DecidableEq, Repr

/-- SQL expressions appearing in built conditions: a resolved column, optionally wrapped
in the `cast(..., Date)` / `cast(..., String)` chain of the temporal branch. -/
inductive Expr where
  | col (a : ColumnAttr)
  | castDate (e : Expr)
  | castString (e : Expr)
deriving DecidableEq, Repr

/-- The predicate language produced by the filter builders: `ilike` patterns, string and
integer (in)equalities, negation, and the variadic `or_` / `and_` combinators. -/
inductive Condition where
  | ilike (e : Expr) (pat : Str)
  | eqStr (e : Expr) (v : Str)
  | neStr (e : Expr) (v : Str)
  | eqInt (e : Expr) (n : Int)
  | neInt (e : Expr) (n : Int)
  | notc (c : Condition)
  | orc (cs : List Condition)
  | andc (cs : List Condition)

/-- Embedding of a SQLAlchemy `Select`: the root entity plus the joins, where-clauses and
order-by terms accumulated by the pipeline, and the applied offset/limit. -/
structure Stmt where
  fromModel : Str
  joins : List Join := []
  wheres : List Condition := []
  orders : List (ColumnAttr × Bool) := []
  off : Option Int := none
  lim : Option Int := none

/-- `select(model)`. -/
def Stmt.select (model : Str) : Stmt := { fromModel := model }

/-- `stmt.join(aliased_model, relation_attr)`. -/
def Stmt.join (s : Stmt) (j : Join) : Stmt := { s with joins := s.joins ++ [j] }

/-- `stmt.where(cond)`. -/
def Stmt.addWhere (s : Stmt) (c : Condition) : Stmt := { s with wheres := s.wheres ++ [c] }

/-- `stmt.order_by(col.asc())` / `stmt.order_by(col.desc())`; the flag is `true` for
ascending. -/
def Stmt.addOrder (s : Stmt) (t : ColumnAttr × Bool) : Stmt :=
  { s with orders := s.orders ++ [t] }

/-- Modelled from the spec: the error taxonomy of `datatables/exceptions.py`, which is
imported by `core.py`/`utils.py` but absent from the sources.  `invalidColumn` carries
the offending path (the Python message is "Invalid column path: {path}" or "Invalid
column for ordering: {path}"); `configurationError` has the constant message "Order
direction must be asc or desc"; `indexError` embeds the uncaught Python `IndexError` of
an out-of-range order-key column index. -/
inductive DTError where
  | invalidColumn (path : Str)
  | configurationError
  | indexError
deriving DecidableEq, Repr

/-- Modelled from the spec: the per-column `search` object (`{value, matchMode}`) of the
wire shape in spec section 6; `DataTablesColumn` is imported by `utils.py` from
`.schema` but absent from the sources. -/
structure ColumnSearch where
  value : Str := []
  matchMode : Option MatchMode := none
deriving DecidableEq, Repr

/-- Modelled from the spec: `DataTablesColumn` (the `ColumnSpec` of spec section 3),
imported by `utils.py` but absent from the sources.  Field names follow the attribute
accesses in `utils.py` (`col.name`, `col.searchable`, `col.orderable`,
`col.search.value`) and the dict keys in `core.py` (`col["name"]`,
`col.get("searchable")`). -/
structure DataTablesColumn where
  name : Str
  searchable : Bool := false
  orderable : Bool := false
  search : ColumnSearch := {}
deriving DecidableEq, Repr

/-- One entry of `DataTablesRequest.order`: `order["column"]` / `order.column` and
`order["dir"]` / `order.dir`. -/
structure OrderSpec where
  column : Nat
  dir : Str
deriving DecidableEq, Repr

/-- `DataTablesRequest` of `datatables/schema.py`, with the pydantic defaults
(`draw = 1`, `start = 0`, `length = 10`, empty search/order/columns).  The `search`
dict is embedded as an association list; `[]` covers both `None` and `{}` (both falsy
in `if request_data.search`). -/
structure DataTablesRequest where
  draw : Int := 1
  start : Int := 0
  length : Int := 10
  search : List (Str × Str) := []
  order : List OrderSpec := []
  columns : List DataTablesColumn := []

/-- The response dict assembled by `DataTables.process`. -/
structure DTResponse (ρ : Type) where
  draw : Int
  recordsTotal : Nat
  recordsFiltered : Nat
  data : List ρ

/-- One mapped entity: its relationship names with their target entities, and its plain
column attributes with their value kinds.  This is the schema that Python discovers by
reflection (`getattr`, `relation_attr.property.mapper.class_`,
`column_attr.type`). -/
structure EntityModel where
  name : Str
  relations : List (Str × Str) := []
  attributes : List (Str × ColKind) := []

/-- A schema environment: the set of mapped entities, looked up by name. -/
abbrev Env := List EntityModel

/-- Look up an entity by name. -/
def envLookup (env : Env) (m : Str) : Option EntityModel :=
  env.find? (fun em => em.name = m)

/-- `getattr(current_model, part).property.mapper.class_`: succeeds exactly when `part`
names a relationship of `m`, returning the target entity.  A plain column or missing
attribute raises `AttributeError` (here `none`). -/
def relLookup (env : Env) (m : Str) (r : Str) : Option Str :=
  match envLookup env m with
  | none => none
  | some em => alookup r em.relations

/-- The declared value kind of a plain column attribute of `m`, if any. -/
def attrKindLookup (env : Env) (m : Str) (a : Str) : Option ColKind :=
  match envLookup env m with
  | none => none
  | some em => alookup a em.attributes

/-- `getattr(current_model, part)` on the final path segment: a plain column yields its
kind; a relationship name also succeeds as an attribute but its `.type` access later
raises `AttributeError`, i.e. it behaves as `unsupported`; anything else raises
`AttributeError` (`none`). -/
def finalKind (env : Env) (m : Str) (a : Str) : Option ColKind :=
  match attrKindLookup env m a with
  | some k => some k
  | none => if (relLookup env m a).isSome then some ColKind.unsupported else none

/-- Follow a chain of relationship segments from `m`, returning the entity reached. -/
def walkRel (env : Env) : Str → List Str → Option Str
  | m, [] => some m
  | m, p :: ps =>
    match relLookup env m p with
    | some t => walkRel env t ps
    | none => none

/-- Specification-level resolution outcome of a segment list against entity `m`: the
owning entity of the final attribute and its kind.  This is the pure shadow of
`resolve_column`, independent of the mutable alias dictionaries. -/
def specParts (env : Env) (m : Str) : List Str → Option (Str × ColKind)
  | [] => none
  | [a] => (finalKind env m a).map (fun k => (m, k))
  | p :: p' :: ps =>
    match relLookup env m p with
    | some t => specParts env t (p' :: ps)
    | none => none

/-- Specification-level resolution of a dotted path against entity `m`. -/
def specResolve (env : Env) (m : Str) (path : Str) : Option (Str × ColKind) :=
  specParts env m (splitOnChar '.' path)

/-- The mutable state of one resolution pass: the `aliased_models` and `joins`
dictionaries (insertion-ordered, keyed by dotted path prefix) plus the fresh-alias
counter embedding the identity of new `aliased(...)` objects. -/
structure ResolveState where
  aliased_models : List (Str × (Str × Nat)) := []
  joins : List (Str × Join) := []
  fresh : Nat := 0

/-- The segment walk shared by `utils.resolve_column` and the loops inlined in
`core.get_filtered_query` / `core.apply_ordering`: every segment but the last must be a
relationship (reusing the alias registered for its path prefix, or creating and
registering a fresh one); the last segment is the column attribute.  `none` embeds an
escaping `AttributeError`. -/
def resolveParts (env : Env) : Str → Option Nat → List Str → List Str → ResolveState →
    Option (ColumnAttr × ResolveState)
  | _, _, _, [], _ => none
  | cm, ca, _, [part], st =>
    match finalKind env cm part with
    | some k => some (⟨cm, ca, part, k⟩, st)
    | none => none
  | cm, ca, cur, part :: p' :: ps, st =>
    let cur' := cur ++ [part]
    let key := joinChar '.' cur'
    match alookup key st.aliased_models with
    | some (tm, a) => resolveParts env tm (some a) cur' (p' :: ps) st
    | none =>
      match relLookup env cm part with
      | none => none
      | some tm =>
        let a := st.fresh
        let st' : ResolveState :=
          { aliased_models := st.aliased_models ++ [(key, (tm, a))]
            joins := st.joins ++ [(key, ⟨cm, ca, part, tm, a⟩)]
            fresh := st.fresh + 1 }
        resolveParts env tm (some a) cur' (p' :: ps) st'

/-- `utils.resolve_column(model, column_path, joins, aliased_models)`: split the dotted
path and walk it, threading the alias dictionaries.  The same traversal is inlined in
`core.get_filtered_query` and `core.apply_ordering`. -/
def resolve_column (env : Env) (model : Str) (column_path : Str) (st : ResolveState) :
    Option (ColumnAttr × ResolveState) :=
  resolveParts env model none [] (splitOnChar '.' column_path) st

/-- `utils.apply_joins(stmt, joins)`: fold `stmt.join` over the accumulated joins in
insertion order. -/
def apply_joins (stmt : Stmt) (joins : List (Str × Join)) : Stmt :=
  joins.foldl (fun s kj => s.join kj.2) stmt

/-- `utils.build_condition(column_attr, match_mode, value)`: kind-dispatched predicate
construction.  Text columns support all six modes; integer columns parse the value with
`int(...)` and support only `equals` / `notEquals` (anything else, or a parse failure,
yields `none`); temporal columns are cast to date-only and then to a string and compared
against the value truncated at the first `T`; unsupported columns always yield
`none`. -/
def build_condition (column_attr : ColumnAttr) (match_mode : MatchMode) (value : Str) :
    Option Condition :=
  match column_attr.kind with
  | ColKind.text =>
    match match_mode with
    | MatchMode.contains => some (.ilike (.col column_attr) ('%' :: value ++ ['%']))
    | MatchMode.equals => some (.eqStr (.col column_attr) value)
    | MatchMode.startsWith => some (.ilike (.col column_attr) (value ++ ['%']))
    | MatchMode.endsWith => some (.ilike (.col column_attr) ('%' :: value))
    | MatchMode.notContains => some (.notc (.ilike (.col column_attr) ('%' :: value ++ ['%'])))
    | MatchMode.notEquals => some (.neStr (.col column_attr) value)
  | ColKind.integer =>
    match pyInt value with
    | some n =>
      match match_mode with
      | MatchMode.equals => some (.eqInt (.col column_attr) n)
      | MatchMode.notEquals => some (.neInt (.col column_attr) n)
      | _ => none
    | none => none
  | ColKind.temporal =>
    let colStr := Expr.castString (Expr.castDate (Expr.col column_attr))
    let clean := pyBeforeT value
    match match_mode with
    | MatchMode.contains => some (.ilike colStr ('%' :: clean ++ ['%']))
    | MatchMode.equals => some (.eqStr colStr clean)
    | MatchMode.startsWith => some (.ilike colStr (clean ++ ['%']))
    | MatchMode.endsWith => some (.ilike colStr ('%' :: clean))
    | MatchMode.notContains => some (.notc (.ilike colStr ('%' :: clean ++ ['%'])))
    | MatchMode.notEquals => some (.neStr colStr clean)
  | ColKind.unsupported => none

/-- The trimmed global search value of a request:
`request_data.search.get("value", "").strip() if request_data.search else ""`. -/
def searchValue (rd : DataTablesRequest) : Str :=
  if rd.search = [] then [] else pyStrip ((alookup (str "value") rd.search).getD [])

/-- The column loop of `core.DataTables.get_filtered_query`: for each searchable column,
resolve its path (sharing one pair of alias dictionaries across the loop, an escaping
`AttributeError` becoming `InvalidColumnError` with the column path) and, when the
resolved column's type is `String`/`Text`, append `column.ilike(f"%{search_value}%")`
to the collected conditions.  Columns of any other kind (including hybrid properties,
whose `.type` access is caught by the inner `try`) are skipped silently. -/
def gfqLoop (env : Env) (root : Str) (sv : Str) :
    List DataTablesColumn → List Condition → ResolveState →
    Except DTError (List Condition × ResolveState)
  | [], conds, st => .ok (conds, st)
  | col :: rest, conds, st =>
    if col.searchable then
      match resolve_column env root col.name st with
      | none => .error (.invalidColumn col.name)
      | some (attr, st') =>
        if attr.kind = ColKind.text then
          gfqLoop env root sv rest
            (conds ++ [.ilike (.col attr) ('%' :: sv ++ ['%'])]) st'
        else
          gfqLoop env root sv rest conds st'
    else gfqLoop env root sv rest conds st

/-- `core.DataTables.get_filtered_query(stmt, request_data)`: when the trimmed global
search value is nonempty, run the searchable-column loop, apply the accumulated joins,
and add `or_(*search_conditions)` when any condition was collected.  The fresh-alias
counter is threaded in and out (Python's `aliased()` freshness is global to the
call). -/
def get_filtered_query (env : Env) (root : Str) (stmt : Stmt) (rd : DataTablesRequest)
    (fr : Nat) : Except DTError (Stmt × Nat) :=
  let sv := searchValue rd
  if sv = [] then .ok (stmt, fr)
  else
    match gfqLoop env root sv rd.columns [] { fresh := fr } with
    | .error e => .error e
    | .ok (conds, st) =>
      let stmt1 := apply_joins stmt st.joins
      .ok (if conds.isEmpty then stmt1 else stmt1.addWhere (.orc conds), st.fresh)

/-- The per-key loop of `core.DataTables.apply_ordering`: each order key indexes into
`request_data.columns` (an out-of-range index raising `IndexError`), resolves the
column path with FRESH alias dictionaries for this key alone, applies that key's joins,
and appends an ascending or descending order-by term; any other direction raises
`ConfigurationError`.  The `orderable` flag is never consulted here. -/
def aoLoop (env : Env) (root : Str) (cols : List DataTablesColumn) :
    List OrderSpec → Stmt → Nat → Except DTError (Stmt × Nat)
  | [], stmt, fr => .ok (stmt, fr)
  | o :: rest, stmt, fr =>
    match cols[o.column]? with
    | none => .error .indexError
    | some col =>
      match resolve_column env root col.name { fresh := fr } with
      | none => .error (.invalidColumn col.name)
      | some (attr, st) =>
        let stmt1 := apply_joins stmt st.joins
        if o.dir = str "asc" then aoLoop env root cols rest (stmt1.addOrder (attr, true)) st.fresh
        else if o.dir = str "desc" then
          aoLoop env root cols rest (stmt1.addOrder (attr, false)) st.fresh
        else .error .configurationError

/-- `core.DataTables.apply_ordering(stmt, request_data)`: no-op on an empty order list,
otherwise the per-key loop. -/
def apply_ordering (env : Env) (root : Str) (stmt : Stmt) (rd : DataTablesRequest)
    (fr : Nat) : Except DTError (Stmt × Nat) :=
  if rd.order = [] then .ok (stmt, fr)
  else aoLoop env root rd.columns rd.order stmt fr

/-- `core.DataTables.get_query()`: the caller-supplied base statement, or
`select(model)` when none was given. -/
def get_query (root : Str) (base : Option Stmt) : Stmt :=
  match base with
  | none => Stmt.select root
  | some b => b

/-- `core.DataTables.process(request_data)`: base statement (caller-supplied or
`select(model)`), unfiltered count, global search filter, filtered count, ordering,
`offset(start).limit(length)`, execution, response assembly.  The two backend count
operations (`SQLAlchemyBackend.get_total_records` / `get_filtered_records`) both count
the rows of the statement they are given and are embedded as the single function
`cnt`; `execQ` embeds `execute_query`. -/
def process {ρ : Type} (env : Env) (root : Str) (base : Option Stmt) (cnt : Stmt → Nat)
    (execQ : Stmt → List ρ) (rd : DataTablesRequest) : Except DTError (DTResponse ρ) :=
  let stmt0 := get_query root base
  let records_total := cnt stmt0
  match get_filtered_query env root stmt0 rd 0 with
  | .error e => .error e
  | .ok (stmt1, fr1) =>
    let records_filtered := cnt stmt1
    match apply_ordering env root stmt1 rd fr1 with
    | .error e => .error e
    | .ok (stmt2, _) =>
      .ok ⟨rd.draw, records_total, records_filtered,
        execQ { stmt2 with off := some rd.start, lim := some rd.length }⟩

/-- The column loop of `utils.global_filter`: like `gfqLoop` but building the condition
through `build_condition(attr, MatchMode.CONTAINS, search_value)` (so temporal columns
also contribute), skipping columns for which it returns `None`. -/
def glLoop (env : Env) (root : Str) (sv : Str) :
    List DataTablesColumn → List Condition → ResolveState →
    Except DTError (List Condition × ResolveState)
  | [], conds, st => .ok (conds, st)
  | col :: rest, conds, st =>
    if col.searchable then
      match resolve_column env root col.name st with
      | none => .error (.invalidColumn col.name)
      | some (attr, st') =>
        match build_condition attr MatchMode.contains sv with
        | some c => glLoop env root sv rest (conds ++ [c]) st'
        | none => glLoop env root sv rest conds st'
    else glLoop env root sv rest conds st

/-- `utils.global_filter(search_value, stmt, columns, model)`. -/
def global_filter (env : Env) (sv : Str) (stmt : Stmt) (columns : List DataTablesColumn)
    (model : Str) (fr : Nat) : Except DTError (Stmt × Nat) :=
  if sv = [] then .ok (stmt, fr)
  else
    match glLoop env model sv columns [] { fresh := fr } with
    | .error e => .error e
    | .ok (conds, st) =>
      let stmt1 := apply_joins stmt st.joins
      .ok (if conds.isEmpty then stmt1 else stmt1.addWhere (.orc conds), st.fresh)

/-- The per-column filter value of `utils.column_filter`:
`col.search.value.strip() if col.search.value else ""`. -/
def cfValue (col : DataTablesColumn) : Str :=
  if col.search.value = [] then [] else pyStrip col.search.value

/-- The column loop of `utils.column_filter`: skip non-searchable columns and columns
whose trimmed filter value is empty; resolve the rest (sharing one pair of alias
dictionaries across the loop) and collect
`build_condition(attr, MatchMode.CONTAINS, value)` — the column's own declared match
mode is never consulted. -/
def cfLoop (env : Env) (root : Str) :
    List DataTablesColumn → List Condition → ResolveState →
    Except DTError (List Condition × ResolveState)
  | [], conds, st => .ok (conds, st)
  | col :: rest, conds, st =>
    if !col.searchable then cfLoop env root rest conds st
    else if cfValue col = [] then cfLoop env root rest conds st
    else
      match resolve_column env root col.name st with
      | none => .error (.invalidColumn col.name)
      | some (attr, st') =>
        match build_condition attr MatchMode.contains (cfValue col) with
        | some c => cfLoop env root rest (conds ++ [c]) st'
        | none => cfLoop env root rest conds st'

/-- `utils.column_filter(stmt, columns, model)`: run the column loop, apply the
accumulated joins, and add `and_(*column_conditions)` when any condition was
collected. -/
def column_filter (env : Env) (stmt : Stmt) (columns : List DataTablesColumn)
    (model : Str) (fr : Nat) : Except DTError (Stmt × Nat) :=
  match cfLoop env model columns [] { fresh := fr } with
  | .error e => .error e
  | .ok (conds, st) =>
    let stmt1 := apply_joins stmt st.joins
    .ok (if conds.isEmpty then stmt1 else stmt1.addWhere (.andc conds), st.fresh)

/-- The per-key loop of `utils.order_column`: keys whose column is not `orderable`, or
whose column name is empty, are skipped silently (`continue`); the rest resolve with
fresh alias dictionaries per key, apply their joins, and append an order-by term;
directions other than `asc`/`desc` raise `ConfigurationError`. -/
def ocLoop (env : Env) (root : Str) (cols : List DataTablesColumn) :
    List OrderSpec → Stmt → Nat → Except DTError (Stmt × Nat)
  | [], stmt, fr => .ok (stmt, fr)
  | o :: rest, stmt, fr =>
    match cols[o.column]? with
    | none => .error .indexError
    | some col =>
      if !col.orderable then ocLoop env root cols rest stmt fr
      else if col.name = [] then ocLoop env root cols rest stmt fr
      else
        match resolve_column env root col.name { fresh := fr } with
        | none => .error (.invalidColumn col.name)
        | some (attr, st) =>
          let stmt1 := apply_joins stmt st.joins
          if o.dir = str "asc" then
            ocLoop env root cols rest (stmt1.addOrder (attr, true)) st.fresh
          else if o.dir = str "desc" then
            ocLoop env root cols rest (stmt1.addOrder (attr, false)) st.fresh
          else .error .configurationError

/-- `utils.order_column(model, stmt, request_data)`. -/
def order_column (env : Env) (root : Str) (stmt : Stmt) (rd : DataTablesRequest)
    (fr : Nat) : Except DTError (Stmt × Nat) :=
  if rd.order = [] then .ok (stmt, fr)
  else ocLoop env root rd.columns rd.order stmt fr

/-- The column-attribute name underlying an expression (through the temporal casts). -/
def exprName : Expr → Str
  | .col a => a.name
  | .castDate e => exprName e
  | .castString e => exprName e

/-- The column-attribute name underlying a condition (through negation; the variadic
combinators are not used at this level). -/
def condName : Condition → Str
  | .ilike e _ => exprName e
  | .eqStr e _ => exprName e
  | .neStr e _ => exprName e
  | .eqInt e _ => exprName e
  | .neInt e _ => exprName e
  | .notc c => condName c
  | .orc _ => []
  | .andc _ => []

/-- The string payload (ilike pattern or compared value) of a condition. -/
def condPat : Condition → Str
  | .ilike _ p => p
  | .eqStr _ v => v
  | .neStr _ v => v
  | .notc c => condPat c
  | .eqInt _ _ => []
  | .neInt _ _ => []
  | .orc _ => []
  | .andc _ => []

/-- Projection of an order-by term to (attribute name, ascending?). -/
def orderProj (t : ColumnAttr × Bool) : Str × Bool := (t.1.name, t.2)

/-- The order key is in range and its column path resolves against the schema. -/
def orderKeyResolves (env : Env) (root : Str) (cols : List DataTablesColumn)
    (o : OrderSpec) : Bool :=
  match cols[o.column]? with
  | some col => (specResolve env root col.name).isSome
  | none => false

/-- The order key is in range with an `asc`/`desc` direction. -/
def orderKeyDirOk (cols : List DataTablesColumn) (o : OrderSpec) : Bool :=
  cols[o.column]?.isSome &&
    (decide (o.dir = str "asc") || decide (o.dir = str "desc"))

/-- The order key is in range, and — when its column is orderable with a nonempty name —
its path resolves and its direction is `asc`/`desc` (the shape under which
`order_column` cannot fail on this key). -/
def orderKeyOk (env : Env) (root : Str) (cols : List DataTablesColumn)
    (o : OrderSpec) : Bool :=
  match cols[o.column]? with
  | none => false
  | some col =>
    !(col.orderable && !decide (col.name = [])) ||
      ((specResolve env root col.name).isSome &&
        (decide (o.dir = str "asc") || decide (o.dir = str "desc")))

/-- The order key survives `order_column`'s silent skips: in range, orderable column,
nonempty column name. -/
def orderKeyKept (cols : List DataTablesColumn) (o : OrderSpec) : Bool :=
  match cols[o.column]? with
  | some col => col.orderable && !decide (col.name = [])
  | none => false

/-- The (attribute name, ascending?) pair an order key contributes when applied. -/
def orderKeyProj (cols : List DataTablesColumn) (o : OrderSpec) : Str × Bool :=
  (lastSegOf (match cols[o.column]? with
    | some col => col.name
    | none => []),
    decide (o.dir = str "asc"))

/-- The column qualifies for a per-column filter predicate in `column_filter`:
searchable, nonempty trimmed value, and a path resolving to a text or temporal column
(the kinds for which `build_condition` with `contains` yields a predicate). -/
def cfProduces (env : Env) (root : Str) (col : DataTablesColumn) : Bool :=
  col.searchable && !decide (cfValue col = []) &&
    (match specResolve env root col.name with
     | some (_, ColKind.text) => true
     | some (_, ColKind.temporal) => true
     | _ => false)

/-- The (attribute name, ilike pattern) pair `column_filter` builds for a qualifying
column: the filter value (date-truncated for temporal columns) wrapped in `%`
wildcards. -/
def cfSpecCond (env : Env) (root : Str) (col : DataTablesColumn) : Str × Str :=
  match specResolve env root col.name with
  | some (_, ColKind.temporal) =>
    (lastSegOf col.name, '%' :: pyBeforeT (cfValue col) ++ ['%'])
  | _ => (lastSegOf col.name, '%' :: cfValue col ++ ['%'])

/-- Every searchable column of `column_filter` that carries a value resolves (the shape
under which `column_filter` cannot raise). -/
def cfFilterOk (env : Env) (root : Str) (col : DataTablesColumn) : Bool :=
  !(col.searchable && !decide (cfValue col = [])) ||
    (specResolve env root col.name).isSome

/-- The condition `build_condition` produces for a temporal column: the attribute cast
to date-only (`cast(..., Date)`) then to a string (`cast(..., String)`), compared per
match mode against the day-granular value. -/
def temporalCondSpec (a : ColumnAttr) (m : MatchMode) (clean : Str) : Condition :=
  match m with
  | MatchMode.contains =>
    .ilike (.castString (.castDate (.col a))) ('%' :: clean ++ ['%'])
  | MatchMode.equals => .eqStr (.castString (.castDate (.col a))) clean
  | MatchMode.startsWith => .ilike (.castString (.castDate (.col a))) (clean ++ ['%'])
  | MatchMode.endsWith => .ilike (.castString (.castDate (.col a))) ('%' :: clean)
  | MatchMode.notContains =>
    .notc (.ilike (.castString (.castDate (.col a))) ('%' :: clean ++ ['%']))
  | MatchMode.notEquals => .neStr (.castString (.castDate (.col a))) clean

/-- A one-entity schema: `Student` with a text `name` and an integer `age` (the shape of
the example model in `main.py`). -/
def envStudent : Env :=
  [⟨str "Student", [], [(str "name", ColKind.text), (str "age", ColKind.integer)]⟩]

/-- A two-entity schema: `Book` with relationship `author` to `Author`, which has a text
`name`. -/
def envBook : Env :=
  [⟨str "Book", [(str "author", str "Author")], [(str "title", ColKind.text)]⟩,
   ⟨str "Author", [], [(str "name", ColKind.text)]⟩]

/-- A column carrying a per-column filter value `"bob"` with a declared `equals` match
mode. -/
def colBobEquals : DataTablesColumn where
  name := str "name"
  searchable := true
  search := { value := str "bob", matchMode := some MatchMode.equals }

/-- A request whose only column carries a per-column filter value (`colBobEquals`), but
no global search and no ordering. -/
def reqColumnFilter : DataTablesRequest :=
  { draw := 1, columns := [colBobEquals] }

/-- A request that both searches globally (value `"x"`) and orders ascending over the
related path `author.name`. -/
def reqJoinTwice : DataTablesRequest where
  draw := 1
  search := [(str "value", str "x")]
  order := [⟨0, str "asc"⟩]
  columns := [{ name := str "author.name", searchable := true, orderable := true }]

/-- The statement `process` executes for `reqJoinTwice` over `envBook`: the prefix
`author` is joined twice, under alias 0 (global-search pass) and alias 1 (ordering
pass). -/
def stmtJoinTwice : Stmt where
  fromModel := str "Book"
  joins := [⟨str "Book", none, str "author", str "Author", 0⟩,
    ⟨str "Book", none, str "author", str "Author", 1⟩]
  wheres := [Condition.orc [Condition.ilike
    (Expr.col ⟨str "Author", some 0, str "name", ColKind.text⟩) (str "%x%")]]
  orders := [(⟨str "Author", some 1, str "name", ColKind.text⟩, true)]
  off := some 0
  lim := some 10

/-- A request ordering ascending on a column that is not orderable. -/
def reqNonOrderable : DataTablesRequest :=
  { draw := 1, order := [⟨0, str "asc"⟩], columns := [{ name := str "age" }] }

/-- A request globally searching `"x"` over the unresolvable path `"missing.field"`
(`missing` is neither a relation nor, as a non-final segment, usable as an attribute of
`Book`). -/
def reqMissingPath : DataTablesRequest where
  draw := 1
  search := [(str "value", str "x")]
  columns := [{ name := str "missing.field", searchable := true }]

/-- A request ordering with the invalid direction `"up"` on a resolvable, orderable
column. -/
def reqBadDir : DataTablesRequest where
  draw := 1
  order := [⟨0, str "up"⟩]
  columns := [{ name := str "age", orderable := true }]

/-- The resolution-pass state after resolving `author.name` once from an empty state
over the `Book`/`Author` schema. -/
def stAuthorOnce : ResolveState where
  aliased_models := [(str "author", (str "Author", 0))]
  joins := [(str "author", ⟨str "Book", none, str "author", str "Author", 0⟩)]
  fresh := 1

/-- A request with two order keys: the first ascending on a non-orderable `name` column,
the second descending on an orderable `age` column. -/
def reqMixedOrder : DataTablesRequest where
  draw := 1
  order := [⟨0, str "asc"⟩, ⟨1, str "desc"⟩]
  columns := [{ name := str "name" }, { name := str "age", orderable := true }]

/-- A request with no filters, `start = 7` and the negative `length = -3`. -/
def reqPagination : DataTablesRequest :=
  { draw := 2, start := 7, length := -3 }

/-- The statement `process` executes for `reqPagination`: offset and limit are the
request values verbatim. -/
def stmtPagination : Stmt :=
  { fromModel := str "Student", off := some 7, lim := some (-3) }

/-- A column declaring an `equals` per-column match mode with value `"ab"`. -/
def colEqualsMode : DataTablesColumn where
  name := str "name"
  searchable := true
  search := { value := str "ab", matchMode := some MatchMode.equals }

/-- The statement `apply_ordering` produces for `reqNonOrderable`: ordered by the
non-orderable `age` column. -/
def stmtOrderedAnyway : Stmt where
  fromModel := str "Student"
  orders := [(⟨str "Student", none, str "age", ColKind.integer⟩, true)]

/-- The statement `column_filter` produces for `colEqualsMode`: a single `and_`-wrapped
`contains` (`ILIKE %ab%`) predicate, the declared `equals` mode notwithstanding. -/
def stmtEqualsFiltered : Stmt where
  fromModel := str "Student"
  wheres := [Condition.andc [Condition.ilike
    (Expr.col ⟨str "Student", none, str "name", ColKind.text⟩) (str "%ab%")]]

/-- A separator-free segment (as produced by `splitOnChar '.'`). -/
def GoodSeg (g : Str) : Prop := ('.' : Char) ∉ g

/-- Consistency of the `aliased_models` dictionary with the schema: every registered
path prefix is the dot-joined form of a nonempty chain of relationship segments leading
from the root entity to the recorded target entity.  This is the invariant that makes
alias reuse across columns of one resolution pass sound. -/
def StOk (env : Env) (root : Str) (st : ResolveState) : Prop :=
  ∀ k tm a, alookup k st.aliased_models = some (tm, a) →
    ∃ parts, parts ≠ [] ∧ (∀ p ∈ parts, GoodSeg p) ∧ joinChar '.' parts = k ∧
      walkRel env root parts = some tm

theorem StOk_start (env : Env) (root : Str) (js : List (Str × Join)) (fr : Nat) :
    StOk env root ⟨[], js, fr⟩ := by
  intro k tm a h
  simp [alookup] at h

theorem splitOnChar_ne_nil (sep : Char) (s : Str) : splitOnChar sep s ≠ [] := by
  cases s with
  | nil => simp [splitOnChar]
  | cons c cs =>
    simp only [splitOnChar]
    split <;> simp

theorem not_mem_splitOnChar (sep : Char) (s : Str) :
    ∀ g ∈ splitOnChar sep s, sep ∉ g := by
  induction s with
  | nil =>
    intro g hg
    have hg' : g = [] := by simpa [splitOnChar] using hg
    simp [hg']
  | cons c cs ih =>
    intro g hg
    rcases hr : splitOnChar sep cs with _ | ⟨g₀, gs⟩
    · exact absurd hr (splitOnChar_ne_nil sep cs)
    · simp only [splitOnChar, hr] at hg
      by_cases hc : c = sep
      · rw [if_pos hc] at hg
        rcases List.mem_cons.mp hg with hg | hg
        · subst hg
          simp
        · exact ih g (by rw [hr]; exact hg)
      · rw [if_neg hc] at hg
        simp only [List.headD_cons, List.tail_cons, List.mem_cons] at hg
        rcases hg with hg | hg
        · subst hg
          intro hmem
          rcases List.mem_cons.mp hmem with h1 | h1
          · exact hc h1.symm
          · exact ih g₀ (by rw [hr]; exact List.mem_cons_self g₀ gs) h1
        · exact ih g (by rw [hr]; exact List.mem_cons_of_mem g₀ hg)

theorem splitOnChar_sepfree (sep : Char) (s : Str) (h : sep ∉ s) :
    splitOnChar sep s = [s] := by
  induction s with
  | nil => rfl
  | cons c cs ih =>
    simp only [List.mem_cons, not_or] at h
    obtain ⟨h1, h2⟩ := h
    have hc : ¬c = sep := Ne.symm h1
    simp [splitOnChar, ih h2, hc]

theorem splitOnChar_append_sep (sep : Char) (a b : Str) (h : sep ∉ a) :
    splitOnChar sep (a ++ sep :: b) = a :: splitOnChar sep b := by
  induction a with
  | nil => simp [splitOnChar]
  | cons c a' ih =>
    simp only [List.mem_cons, not_or] at h
    obtain ⟨h1, h2⟩ := h
    have hc : ¬c = sep := Ne.symm h1
    simp [splitOnChar, ih h2, hc]

theorem splitOnChar_joinChar (sep : Char) (l : List Str) (hne : l ≠ [])
    (h : ∀ g ∈ l, sep ∉ g) : splitOnChar sep (joinChar sep l) = l := by
  induction l with
  | nil => exact absurd rfl hne
  | cons g l' ih =>
    cases l' with
    | nil => simpa [joinChar] using splitOnChar_sepfree sep g (h g (by simp))
    | cons g' l'' =>
      rw [joinChar, splitOnChar_append_sep sep g _ (h g (by simp)),
        ih (by simp) (fun x hx => h x (List.mem_cons_of_mem g hx))]

theorem joinChar_inj (sep : Char) (l1 l2 : List Str) (h1 : l1 ≠ []) (h2 : l2 ≠ [])
    (hs1 : ∀ g ∈ l1, sep ∉ g) (hs2 : ∀ g ∈ l2, sep ∉ g)
    (h : joinChar sep l1 = joinChar sep l2) : l1 = l2 := by
  rw [← splitOnChar_joinChar sep l1 h1 hs1, ← splitOnChar_joinChar sep l2 h2 hs2, h]

theorem alookup_append_left {β : Type} (k : Str) (l1 l2 : List (Str × β)) (v : β)
    (h : alookup k l1 = some v) : alookup k (l1 ++ l2) = some v := by
  induction l1 with
  | nil => simp [alookup] at h
  | cons kv rest ih =>
    obtain ⟨k', v'⟩ := kv
    by_cases hk : k' = k
    · simp only [alookup, if_pos hk] at h
      simp [alookup, hk, h]
    · simp only [alookup, if_neg hk] at h
      simp [alookup, hk, ih h]

theorem alookup_append_right {β : Type} (k : Str) (l1 l2 : List (Str × β))
    (h : alookup k l1 = none) : alookup k (l1 ++ l2) = alookup k l2 := by
  induction l1 with
  | nil => simp [alookup]
  | cons kv rest ih =>
    obtain ⟨k', v'⟩ := kv
    by_cases hk : k' = k
    · simp [alookup, if_pos hk] at h
    · simp only [alookup, if_neg hk] at h
      simp [alookup, hk, ih h]

theorem walkRel_append (env : Env) (m : Str) (xs ys : List Str) :
    walkRel env m (xs ++ ys) = (walkRel env m xs).bind (fun t => walkRel env t ys) := by
  induction xs generalizing m with
  | nil => simp [walkRel]
  | cons p ps ih =>
    simp only [List.cons_append, walkRel]
    cases relLookup env m p with
    | none => rfl
    | some t => exact ih t

theorem walkRel_singleton (env : Env) (m : Str) (p : Str) :
    walkRel env m [p] = relLookup env m p := by
  simp only [walkRel]
  cases relLookup env m p <;> rfl

theorem apply_joins_wheres (stmt : Stmt) (js : List (Str × Join)) :
    (apply_joins stmt js).wheres = stmt.wheres := by
  induction js generalizing stmt with
  | nil => rfl
  | cons j rest ih =>
    show (apply_joins (stmt.join j.2) rest).wheres = stmt.wheres
    rw [ih]
    rfl

theorem apply_joins_orders (stmt : Stmt) (js : List (Str × Join)) :
    (apply_joins stmt js).orders = stmt.orders := by
  induction js generalizing stmt with
  | nil => rfl
  | cons j rest ih =>
    show (apply_joins (stmt.join j.2) rest).orders = stmt.orders
    rw [ih]
    rfl

theorem StOk_push (env : Env) (root : Str) (st : ResolveState) (qs : List Str) (tm : Str)
    (n : Nat) (js : List (Str × Join)) (fr : Nat)
    (hok : StOk env root st) (hne : qs ≠ []) (hgood : ∀ g ∈ qs, GoodSeg g)
    (hw : walkRel env root qs = some tm) :
    StOk env root ⟨st.aliased_models ++ [(joinChar '.' qs, (tm, n))], js, fr⟩ := by
  intro k' tm' a' h'
  simp only at h'
  cases hold : alookup k' st.aliased_models with
  | some v =>
    rw [alookup_append_left k' _ _ v hold] at h'
    obtain rfl : v = (tm', a') := by injection h'
    exact hok k' tm' a' hold
  | none =>
    rw [alookup_append_right k' _ _ hold] at h'
    by_cases hk : joinChar '.' qs = k'
    · simp only [alookup, if_pos hk] at h'
      obtain ⟨h1, h2⟩ : tm = tm' ∧ n = a' := by
        have := h'
        injection this with this
        exact ⟨congrArg Prod.fst this, congrArg Prod.snd this⟩
      exact ⟨qs, hne, hgood, hk, by rw [hw, h1]⟩
    · simp [alookup, if_neg hk] at h'

/-- Soundness of the stateful segment walk against the pure schema walk, under the
dictionary invariant: resolution fails exactly when the pure walk fails, and on success
the resolved attribute is the one the pure walk describes (up to the alias number), the
invariant is preserved, and previously registered prefixes remain registered. -/
theorem resolveParts_sound (env : Env) (root : Str) :
    ∀ (parts cur : List Str) (cm : Str) (ca : Option Nat) (st : ResolveState),
    StOk env root st →
    (∀ g ∈ cur, GoodSeg g) →
    (∀ g ∈ parts, GoodSeg g) →
    walkRel env root cur = some cm →
    (specParts env cm parts = none → resolveParts env cm ca cur parts st = none) ∧
    (∀ om k, specParts env cm parts = some (om, k) →
      ∃ al st', resolveParts env cm ca cur parts st = some (⟨om, al, lastSeg parts, k⟩, st') ∧
        StOk env root st' ∧
        (∀ key v, alookup key st.aliased_models = some v →
          alookup key st'.aliased_models = some v)) := by
  intro parts
  induction parts with
  | nil =>
    intro cur cm ca st _ _ _ _
    refine ⟨fun _ => rfl, fun om k h => ?_⟩
    simp [specParts] at h
  | cons p tail ih =>
    intro cur cm ca st hok hcur hparts hwalk
    cases tail with
    | nil =>
      constructor
      · intro hs
        have hf : finalKind env cm p = none := by
          cases hf : finalKind env cm p with
          | none => rfl
          | some k0 => simp [specParts, hf] at hs
        simp [resolveParts, hf]
      · intro om k h
        cases hf : finalKind env cm p with
        | none => simp [specParts, hf] at h
        | some k0 =>
          simp only [specParts, hf, Option.map_some'] at h
          rw [Option.some.injEq, Prod.mk.injEq] at h
          obtain ⟨h1, h2⟩ := h
          subst h1
          subst h2
          exact ⟨ca, st, by simp [resolveParts, hf, lastSeg], hok, fun key v hv => hv⟩
    | cons p' ps =>
      have hcur' : ∀ g ∈ cur ++ [p], GoodSeg g := by
        intro g hg
        rcases List.mem_append.mp hg with hg | hg
        · exact hcur g hg
        · have := List.mem_singleton.mp hg
          subst this
          exact hparts g (List.mem_cons_self _ _)
      have htail : ∀ g ∈ p' :: ps, GoodSeg g :=
        fun g hg => hparts g (List.mem_cons_of_mem p hg)
      have hwcur' : walkRel env root (cur ++ [p]) = relLookup env cm p := by
        rw [walkRel_append, hwalk]
        simp [walkRel_singleton]
      cases halo : alookup (joinChar '.' (cur ++ [p])) st.aliased_models with
      | some pr =>
        obtain ⟨tm, a⟩ := pr
        obtain ⟨parts₀, hne₀, hgood₀, hjoin₀, hwalk₀⟩ := hok _ _ _ halo
        have hpeq : parts₀ = cur ++ [p] :=
          joinChar_inj '.' parts₀ (cur ++ [p]) hne₀ (by simp) hgood₀ hcur' hjoin₀
        rw [hpeq] at hwalk₀
        have hrel : relLookup env cm p = some tm := by rw [← hwcur']; exact hwalk₀
        have hred : resolveParts env cm ca cur (p :: p' :: ps) st =
            resolveParts env tm (some a) (cur ++ [p]) (p' :: ps) st := by
          simp only [resolveParts, halo]
        have hspec : specParts env cm (p :: p' :: ps) = specParts env tm (p' :: ps) := by
          simp [specParts, hrel]
        obtain ⟨ihn, ihs⟩ := ih (cur ++ [p]) tm (some a) st hok hcur' htail hwalk₀
        constructor
        · intro hs
          rw [hred]
          exact ihn (by rw [← hspec]; exact hs)
        · intro om k h
          rw [hspec] at h
          obtain ⟨al, st', hres, hok', hpres⟩ := ihs om k h
          exact ⟨al, st', by rw [hred, hres]; rfl, hok', hpres⟩
      | none =>
        cases hrel : relLookup env cm p with
        | none =>
          have hres : resolveParts env cm ca cur (p :: p' :: ps) st = none := by
            simp only [resolveParts, halo, hrel]
          refine ⟨fun _ => hres, fun om k h => ?_⟩
          simp [specParts, hrel] at h
        | some tm =>
          have hwcurtm : walkRel env root (cur ++ [p]) = some tm := by
            rw [hwcur']
            exact hrel
          have hok₁ : StOk env root
              ⟨st.aliased_models ++ [(joinChar '.' (cur ++ [p]), (tm, st.fresh))],
                st.joins ++ [(joinChar '.' (cur ++ [p]), ⟨cm, ca, p, tm, st.fresh⟩)],
                st.fresh + 1⟩ :=
            StOk_push env root st (cur ++ [p]) tm st.fresh _ _ hok (by simp) hcur' hwcurtm
          have hred : resolveParts env cm ca cur (p :: p' :: ps) st =
              resolveParts env tm (some st.fresh) (cur ++ [p]) (p' :: ps)
                ⟨st.aliased_models ++ [(joinChar '.' (cur ++ [p]), (tm, st.fresh))],
                  st.joins ++ [(joinChar '.' (cur ++ [p]), ⟨cm, ca, p, tm, st.fresh⟩)],
                  st.fresh + 1⟩ := by
            simp only [resolveParts, halo, hrel]
          have hspec : specParts env cm (p :: p' :: ps) = specParts env tm (p' :: ps) := by
            simp [specParts, hrel]
          obtain ⟨ihn, ihs⟩ := ih (cur ++ [p]) tm (some st.fresh) _ hok₁ hcur' htail hwcurtm
          constructor
          · intro hs
            rw [hred]
            exact ihn (by rw [← hspec]; exact hs)
          · intro om k h
            rw [hspec] at h
            obtain ⟨al, st', hres, hok', hpres⟩ := ihs om k h
            refine ⟨al, st', by rw [hred, hres]; rfl, hok', ?_⟩
            intro key v hv
            exact hpres key v (alookup_append_left key _ _ v hv)

/-- A successful segment walk only appends to the `aliased_models` dictionary. -/
theorem resolveParts_extend (env : Env) :
    ∀ (parts cur : List Str) (cm : Str) (ca : Option Nat) (st : ResolveState)
      (a : ColumnAttr) (st' : ResolveState),
    resolveParts env cm ca cur parts st = some (a, st') →
    ∃ d, st'.aliased_models = st.aliased_models ++ d := by
  intro parts
  induction parts with
  | nil =>
    intro cur cm ca st a st' h
    simp [resolveParts] at h
  | cons p tail ih =>
    intro cur cm ca st a st' h
    cases tail with
    | nil =>
      cases hf : finalKind env cm p with
      | none => simp [resolveParts, hf] at h
      | some k =>
        simp only [resolveParts, hf] at h
        rw [Option.some.injEq, Prod.mk.injEq] at h
        obtain ⟨-, h2⟩ := h
        subst h2
        exact ⟨[], (List.append_nil _).symm⟩
    | cons p' ps =>
      simp only [resolveParts] at h
      cases halo : alookup (joinChar '.' (cur ++ [p])) st.aliased_models with
      | some pr =>
        obtain ⟨tm, al⟩ := pr
        simp only [halo] at h
        exact ih _ _ _ _ _ _ h
      | none =>
        simp only [halo] at h
        cases hrel : relLookup env cm p with
        | none => simp [hrel] at h
        | some tm =>
          simp only [hrel] at h
          obtain ⟨d, hd⟩ := ih _ _ _ _ _ _ h
          refine ⟨(joinChar '.' (cur ++ [p]), (tm, st.fresh)) :: d, ?_⟩
          rw [hd]
          simp

/-- Re-running a successful segment walk from its own result state finds every prefix
already registered: it returns the same attribute (same alias) and leaves the state
unchanged. -/
theorem resolveParts_idem (env : Env) :
    ∀ (parts cur : List Str) (cm : Str) (ca : Option Nat) (st : ResolveState)
      (a : ColumnAttr) (st' : ResolveState),
    resolveParts env cm ca cur parts st = some (a, st') →
    resolveParts env cm ca cur parts st' = some (a, st') := by
  intro parts
  induction parts with
  | nil =>
    intro cur cm ca st a st' h
    simp [resolveParts] at h
  | cons p tail ih =>
    intro cur cm ca st a st' h
    cases tail with
    | nil =>
      cases hf : finalKind env cm p with
      | none => simp [resolveParts, hf] at h
      | some k =>
        simp only [resolveParts, hf] at h ⊢
        rw [Option.some.injEq, Prod.mk.injEq] at h
        obtain ⟨h1, h2⟩ := h
        subst h2
        rw [h1]
    | cons p' ps =>
      simp only [resolveParts] at h ⊢
      cases halo : alookup (joinChar '.' (cur ++ [p])) st.aliased_models with
      | some pr =>
        obtain ⟨tm, al⟩ := pr
        simp only [halo] at h
        obtain ⟨d, hd⟩ := resolveParts_extend env (p' :: ps) _ _ _ _ _ _ h
        have halo' : alookup (joinChar '.' (cur ++ [p])) st'.aliased_models =
            some (tm, al) := by
          rw [hd]
          exact alookup_append_left _ _ _ _ halo
        simp only [halo']
        exact ih _ _ _ _ _ _ h
      | none =>
        simp only [halo] at h
        cases hrel : relLookup env cm p with
        | none => simp [hrel] at h
        | some tm =>
          simp only [hrel] at h
          obtain ⟨d, hd⟩ := resolveParts_extend env (p' :: ps) _ _ _ _ _ _ h
          have halo' : alookup (joinChar '.' (cur ++ [p])) st'.aliased_models =
              some (tm, st.fresh) := by
            rw [hd]
            simp only at hd ⊢
            rw [List.append_assoc, alookup_append_right _ _ _ halo]
            simp [alookup]
          simp only [halo']
          exact ih _ _ _ _ _ _ h

/-- `resolve_column` from an invariant-respecting state fails exactly when the pure
schema resolution of the path fails, and on success returns the attribute the pure
resolution describes (up to the alias number), preserving the invariant and all
previously registered prefixes. -/
theorem resolve_column_sound (env : Env) (root : Str) (path : Str) (st : ResolveState)
    (hok : StOk env root st) :
    (specResolve env root path = none → resolve_column env root path st = none) ∧
    (∀ om k, specResolve env root path = some (om, k) →
      ∃ al st', resolve_column env root path st = some (⟨om, al, lastSegOf path, k⟩, st') ∧
        StOk env root st' ∧
        (∀ key v, alookup key st.aliased_models = some v →
          alookup key st'.aliased_models = some v)) :=
  resolveParts_sound env root (splitOnChar '.' path) [] root none st hok
    (by simp) (fun g hg => not_mem_splitOnChar '.' path g hg) rfl

/-- With the trimmed global search value empty, `get_filtered_query` returns the
statement unchanged (no predicate, no join) and does not advance the alias counter. -/
theorem get_filtered_query_empty (env : Env) (root : Str) (stmt : Stmt)
    (rd : DataTablesRequest) (fr : Nat) (h : searchValue rd = []) :
    get_filtered_query env root stmt rd fr = .ok (stmt, fr) := by
  simp [get_filtered_query, h]

theorem gfqLoop_error (env : Env) (root : Str) (sv : Str) :
    ∀ (cols : List DataTablesColumn) (conds : List Condition) (st : ResolveState),
    StOk env root st →
    (∃ c ∈ cols, c.searchable = true ∧ specResolve env root c.name = none) →
    ∃ p, gfqLoop env root sv cols conds st = .error (.invalidColumn p) ∧
      ∃ c ∈ cols, c.searchable = true ∧ c.name = p ∧ specResolve env root p = none := by
  intro cols
  induction cols with
  | nil =>
    intro conds st _ hbad
    simp at hbad
  | cons c cs ih =>
    intro conds st hok hbad
    by_cases hs : c.searchable = true
    · cases hsp : specResolve env root c.name with
      | none =>
        have hres : resolve_column env root c.name st = none :=
          (resolve_column_sound env root c.name st hok).1 hsp
        refine ⟨c.name, ?_, c, List.mem_cons_self _ _, hs, rfl, hsp⟩
        simp [gfqLoop, hs, hres]
      | some pr =>
        obtain ⟨om, k⟩ := pr
        obtain ⟨al, st', hres, hok', -⟩ :=
          (resolve_column_sound env root c.name st hok).2 om k hsp
        have hbad' : ∃ c' ∈ cs, c'.searchable = true ∧ specResolve env root c'.name = none := by
          obtain ⟨c', hc'm, hc's, hc'r⟩ := hbad
          rcases List.mem_cons.mp hc'm with rfl | hmm
          · rw [hsp] at hc'r
            exact absurd hc'r (by simp)
          · exact ⟨c', hmm, hc's, hc'r⟩
        have hstep : ∃ conds2, gfqLoop env root sv (c :: cs) conds st =
            gfqLoop env root sv cs conds2 st' := by
          by_cases hkt : k = ColKind.text
          · subst hkt
            exact ⟨conds ++ [Condition.ilike
              (Expr.col ⟨om, al, lastSegOf c.name, ColKind.text⟩) ('%' :: sv ++ ['%'])],
              by simp [gfqLoop, hs, hres]⟩
          · exact ⟨conds, by simp [gfqLoop, hs, hres, hkt]⟩
        obtain ⟨conds2, hstep⟩ := hstep
        obtain ⟨p, hloop, c', hm, hw⟩ := ih conds2 st' hok' hbad'
        exact ⟨p, by rw [hstep, hloop], c', List.mem_cons_of_mem c hm, hw⟩
    · have hbad' : ∃ c' ∈ cs, c'.searchable = true ∧ specResolve env root c'.name = none := by
        obtain ⟨c', hc'm, hc's, hc'r⟩ := hbad
        rcases List.mem_cons.mp hc'm with rfl | hmm
        · exact absurd hc's hs
        · exact ⟨c', hmm, hc's, hc'r⟩
      obtain ⟨p, hloop, c', hm, hw⟩ := ih conds st hok hbad'
      refine ⟨p, ?_, c', List.mem_cons_of_mem c hm, hw⟩
      simpa [gfqLoop, hs] using hloop

/-- With a nonempty global search value, a searchable column whose path does not resolve
makes `get_filtered_query` raise `InvalidColumnError` carrying the path of such a
column. -/
theorem get_filtered_query_error (env : Env) (root : Str) (stmt : Stmt)
    (rd : DataTablesRequest) (fr : Nat) (hs : searchValue rd ≠ [])
    (hbad : ∃ c ∈ rd.columns, c.searchable = true ∧ specResolve env root c.name = none) :
    ∃ p, get_filtered_query env root stmt rd fr = .error (.invalidColumn p) ∧
      ∃ c ∈ rd.columns, c.searchable = true ∧ c.name = p ∧
        specResolve env root p = none := by
  obtain ⟨p, hloop, hw⟩ :=
    gfqLoop_error env root (searchValue rd) rd.columns [] { fresh := fr }
      (StOk_start env root [] fr) hbad
  refine ⟨p, ?_, hw⟩
  simp [get_filtered_query, hs, hloop]

theorem aoLoop_error_config (env : Env) (root : Str) (cols : List DataTablesColumn) :
    ∀ (order : List OrderSpec) (stmt : Stmt) (fr : Nat),
    (∀ o ∈ order, orderKeyResolves env root cols o = true) →
    (∃ o ∈ order, o.dir ≠ str "asc" ∧ o.dir ≠ str "desc") →
    aoLoop env root cols order stmt fr = .error .configurationError := by
  intro order
  induction order with
  | nil =>
    intro stmt fr _ hbad
    simp at hbad
  | cons o os ih =>
    intro stmt fr hall hbad
    have ho := hall o (List.mem_cons_self _ _)
    cases hg : cols[o.column]? with
    | none => simp [orderKeyResolves, hg] at ho
    | some col =>
      have hsome : (specResolve env root col.name).isSome = true := by
        simpa [orderKeyResolves, hg] using ho
      obtain ⟨pr, hsp⟩ := Option.isSome_iff_exists.mp hsome
      obtain ⟨om, k⟩ := pr
      obtain ⟨al, st', hres, -, -⟩ :=
        (resolve_column_sound env root col.name { fresh := fr }
          (StOk_start env root [] fr)).2 om k hsp
      by_cases hasc : o.dir = str "asc"
      · have hbad' : ∃ o' ∈ os, o'.dir ≠ str "asc" ∧ o'.dir ≠ str "desc" := by
          obtain ⟨o', hm, h1, h2⟩ := hbad
          rcases List.mem_cons.mp hm with rfl | hm'
          · exact absurd hasc h1
          · exact ⟨o', hm', h1, h2⟩
        have hrec := ih
          ((apply_joins stmt st'.joins).addOrder (⟨om, al, lastSegOf col.name, k⟩, true))
          st'.fresh (fun o' hm => hall o' (List.mem_cons_of_mem o hm)) hbad'
        simp [aoLoop, hg, hres, hasc, hrec]
      · by_cases hdesc : o.dir = str "desc"
        · have hbad' : ∃ o' ∈ os, o'.dir ≠ str "asc" ∧ o'.dir ≠ str "desc" := by
            obtain ⟨o', hm, h1, h2⟩ := hbad
            rcases List.mem_cons.mp hm with rfl | hm'
            · exact absurd hdesc h2
            · exact ⟨o', hm', h1, h2⟩
          have hda : ¬str "desc" = str "asc" := by decide
          have hrec := ih
            ((apply_joins stmt st'.joins).addOrder (⟨om, al, lastSegOf col.name, k⟩, false))
            st'.fresh (fun o' hm => hall o' (List.mem_cons_of_mem o hm)) hbad'
          simp [aoLoop, hg, hres, hasc, hdesc, hda, hrec]
        · simp [aoLoop, hg, hres, hasc, hdesc]

theorem aoLoop_error_invalid (env : Env) (root : Str) (cols : List DataTablesColumn) :
    ∀ (order : List OrderSpec) (stmt : Stmt) (fr : Nat),
    (∀ o ∈ order, orderKeyDirOk cols o = true) →
    (∃ o ∈ order, orderKeyResolves env root cols o = false) →
    ∃ p, aoLoop env root cols order stmt fr = .error (.invalidColumn p) ∧
      ∃ o ∈ order, ∃ col, cols[o.column]? = some col ∧ col.name = p ∧
        specResolve env root col.name = none := by
  intro order
  induction order with
  | nil =>
    intro stmt fr _ hbad
    simp at hbad
  | cons o os ih =>
    intro stmt fr hall hbad
    have ho := hall o (List.mem_cons_self _ _)
    cases hg : cols[o.column]? with
    | none => simp [orderKeyDirOk, hg] at ho
    | some col =>
      cases hsp : specResolve env root col.name with
      | none =>
        have hres : resolve_column env root col.name { fresh := fr } = none :=
          (resolve_column_sound env root col.name { fresh := fr }
            (StOk_start env root [] fr)).1 hsp
        refine ⟨col.name, ?_, o, List.mem_cons_self _ _, col, hg, rfl, hsp⟩
        simp [aoLoop, hg, hres]
      | some pr =>
        obtain ⟨om, k⟩ := pr
        obtain ⟨al, st', hres, -, -⟩ :=
          (resolve_column_sound env root col.name { fresh := fr }
            (StOk_start env root [] fr)).2 om k hsp
        have hbad' : ∃ o' ∈ os, orderKeyResolves env root cols o' = false := by
          obtain ⟨o', hm, hf⟩ := hbad
          rcases List.mem_cons.mp hm with rfl | hm'
          · exfalso
            simp [orderKeyResolves, hg, hsp] at hf
          · exact ⟨o', hm', hf⟩
        have hdir : o.dir = str "asc" ∨ o.dir = str "desc" := by
          simpa [orderKeyDirOk, hg] using ho
        have htail := fun o' hm => hall o' (List.mem_cons_of_mem o hm)
        rcases hdir with hasc | hdesc
        · obtain ⟨p, hloop, o', hm', hw⟩ := ih
            ((apply_joins stmt st'.joins).addOrder (⟨om, al, lastSegOf col.name, k⟩, true))
            st'.fresh htail hbad'
          refine ⟨p, ?_, o', List.mem_cons_of_mem o hm', hw⟩
          simp [aoLoop, hg, hres, hasc, hloop]
        · have hasc' : ¬o.dir = str "asc" := by
            rw [hdesc]
            decide
          have hda : ¬str "desc" = str "asc" := by decide
          obtain ⟨p, hloop, o', hm', hw⟩ := ih
            ((apply_joins stmt st'.joins).addOrder (⟨om, al, lastSegOf col.name, k⟩, false))
            st'.fresh htail hbad'
          refine ⟨p, ?_, o', List.mem_cons_of_mem o hm', hw⟩
          simp [aoLoop, hg, hres, hasc', hdesc, hda, hloop]

theorem ocLoop_ok (env : Env) (root : Str) (cols : List DataTablesColumn) :
    ∀ (order : List OrderSpec) (stmt : Stmt) (fr : Nat),
    (∀ o ∈ order, orderKeyOk env root cols o = true) →
    ∃ s' fr', ocLoop env root cols order stmt fr = .ok (s', fr') ∧
      s'.orders.map orderProj = stmt.orders.map orderProj ++
        (order.filter (fun o => orderKeyKept cols o)).map
          (fun o => orderKeyProj cols o) := by
  intro order
  induction order with
  | nil =>
    intro stmt fr _
    exact ⟨stmt, fr, rfl, by simp⟩
  | cons o os ih =>
    intro stmt fr hall
    have ho := hall o (List.mem_cons_self _ _)
    have htail := fun o' hm => hall o' (List.mem_cons_of_mem o hm)
    cases hg : cols[o.column]? with
    | none => simp [orderKeyOk, hg] at ho
    | some col =>
      cases hob : col.orderable with
      | false =>
        obtain ⟨s', fr', hloop, horders⟩ := ih stmt fr htail
        refine ⟨s', fr', ?_, ?_⟩
        · simp [ocLoop, hg, hob, hloop]
        · rw [horders]
          have hkept : orderKeyKept cols o = false := by simp [orderKeyKept, hg, hob]
          simp [List.filter_cons, hkept]
      | true =>
        by_cases hname : col.name = []
        · obtain ⟨s', fr', hloop, horders⟩ := ih stmt fr htail
          refine ⟨s', fr', ?_, ?_⟩
          · simp [ocLoop, hg, hob, hname, hloop]
          · rw [horders]
            have hkept : orderKeyKept cols o = false := by
              simp [orderKeyKept, hg, hob, hname]
            simp [List.filter_cons, hkept]
        · have hkept : orderKeyKept cols o = true := by
            simp [orderKeyKept, hg, hob, hname]
          have ho' : (specResolve env root col.name).isSome = true ∧
              (o.dir = str "asc" ∨ o.dir = str "desc") := by
            simpa [orderKeyOk, hg, hob, hname] using ho
          obtain ⟨hsome, hdir⟩ := ho'
          obtain ⟨pr, hsp⟩ := Option.isSome_iff_exists.mp hsome
          obtain ⟨om, k⟩ := pr
          obtain ⟨al, st', hres, -, -⟩ :=
            (resolve_column_sound env root col.name { fresh := fr }
              (StOk_start env root [] fr)).2 om k hsp
          rcases hdir with hasc | hdesc
          · obtain ⟨s', fr', hloop, horders⟩ := ih
              ((apply_joins stmt st'.joins).addOrder (⟨om, al, lastSegOf col.name, k⟩, true))
              st'.fresh htail
            refine ⟨s', fr', ?_, ?_⟩
            · simp [ocLoop, hg, hob, hname, hres, hasc, hloop]
            · rw [horders]
              simp [Stmt.addOrder, apply_joins_orders, orderProj, List.filter_cons, hkept,
                orderKeyProj, hg, hasc]
          · have hasc' : ¬o.dir = str "asc" := by
              rw [hdesc]
              decide
            have hda : ¬str "desc" = str "asc" := by decide
            obtain ⟨s', fr', hloop, horders⟩ := ih
              ((apply_joins stmt st'.joins).addOrder (⟨om, al, lastSegOf col.name, k⟩, false))
              st'.fresh htail
            refine ⟨s', fr', ?_, ?_⟩
            · simp [ocLoop, hg, hob, hname, hres, hasc', hdesc, hda, hloop]
            · rw [horders]
              simp [Stmt.addOrder, apply_joins_orders, orderProj, List.filter_cons, hkept,
                orderKeyProj, hg, hasc', hdesc, hda]

theorem cfLoop_ok (env : Env) (root : Str) :
    ∀ (cols : List DataTablesColumn) (conds : List Condition) (st : ResolveState),
    StOk env root st →
    (∀ col ∈ cols, cfFilterOk env root col = true) →
    ∃ newConds st', cfLoop env root cols conds st = .ok (conds ++ newConds, st') ∧
      newConds.map (fun c => (condName c, condPat c)) =
        (cols.filter (fun col => cfProduces env root col)).map
          (fun col => cfSpecCond env root col) ∧
      StOk env root st' := by
  intro cols
  induction cols with
  | nil =>
    intro conds st hok _
    exact ⟨[], st, by simp [cfLoop], by simp, hok⟩
  | cons col cs ih =>
    intro conds st hok hall
    have hc := hall col (List.mem_cons_self _ _)
    have htail := fun c hm => hall c (List.mem_cons_of_mem col hm)
    cases hsb : col.searchable with
    | false =>
      obtain ⟨nc, st', hloop, hproj, hok'⟩ := ih conds st hok htail
      have hprod : cfProduces env root col = false := by simp [cfProduces, hsb]
      refine ⟨nc, st', ?_, ?_, hok'⟩
      · simp [cfLoop, hsb, hloop]
      · simp [List.filter_cons, hprod, hproj]
    | true =>
      by_cases hval : cfValue col = []
      · obtain ⟨nc, st', hloop, hproj, hok'⟩ := ih conds st hok htail
        have hprod : cfProduces env root col = false := by simp [cfProduces, hval]
        refine ⟨nc, st', ?_, ?_, hok'⟩
        · simp [cfLoop, hsb, hval, hloop]
        · simp [List.filter_cons, hprod, hproj]
      · have hsome : (specResolve env root col.name).isSome = true := by
          simpa [cfFilterOk, hsb, hval] using hc
        obtain ⟨pr, hsp⟩ := Option.isSome_iff_exists.mp hsome
        obtain ⟨om, k⟩ := pr
        obtain ⟨al, st1, hres, hok1, -⟩ :=
          (resolve_column_sound env root col.name st hok).2 om k hsp
        cases k with
        | text =>
          have hprod : cfProduces env root col = true := by
            simp [cfProduces, hsb, hval, hsp]
          obtain ⟨nc, st', hloop, hproj, hok'⟩ := ih
            (conds ++ [Condition.ilike
              (Expr.col ⟨om, al, lastSegOf col.name, ColKind.text⟩)
              ('%' :: cfValue col ++ ['%'])]) st1 hok1 htail
          refine ⟨Condition.ilike (Expr.col ⟨om, al, lastSegOf col.name, ColKind.text⟩)
            ('%' :: cfValue col ++ ['%']) :: nc, st', ?_, ?_, hok'⟩
          · simp only [List.append_assoc, List.singleton_append] at hloop
            simp [cfLoop, hsb, hval, hres, build_condition]
            exact hloop
          · simp [List.filter_cons, hprod, hproj, condName, condPat, exprName,
              cfSpecCond, hsp]
        | integer =>
          have hprod : cfProduces env root col = false := by
            simp [cfProduces, hsb, hval, hsp]
          have hbc : build_condition ⟨om, al, lastSegOf col.name, ColKind.integer⟩
              MatchMode.contains (cfValue col) = none := by
            cases hpi : pyInt (cfValue col) <;> simp [build_condition, hpi]
          obtain ⟨nc, st', hloop, hproj, hok'⟩ := ih conds st1 hok1 htail
          refine ⟨nc, st', ?_, ?_, hok'⟩
          · simp [cfLoop, hsb, hval, hres, hbc, hloop]
          · simp [List.filter_cons, hprod, hproj]
        | temporal =>
          have hprod : cfProduces env root col = true := by
            simp [cfProduces, hsb, hval, hsp]
          obtain ⟨nc, st', hloop, hproj, hok'⟩ := ih
            (conds ++ [Condition.ilike
              (Expr.castString (Expr.castDate
                (Expr.col ⟨om, al, lastSegOf col.name, ColKind.temporal⟩)))
              ('%' :: pyBeforeT (cfValue col) ++ ['%'])]) st1 hok1 htail
          refine ⟨Condition.ilike (Expr.castString (Expr.castDate
              (Expr.col ⟨om, al, lastSegOf col.name, ColKind.temporal⟩)))
              ('%' :: pyBeforeT (cfValue col) ++ ['%']) :: nc, st', ?_, ?_, hok'⟩
          · simp only [List.append_assoc, List.singleton_append] at hloop
            simp [cfLoop, hsb, hval, hres, build_condition]
            exact hloop
          · simp [List.filter_cons, hprod, hproj, condName, condPat, exprName,
              cfSpecCond, hsp]
        | unsupported =>
          have hprod : cfProduces env root col = false := by
            simp [cfProduces, hsb, hval, hsp]
          obtain ⟨nc, st', hloop, hproj, hok'⟩ := ih conds st1 hok1 htail
          refine ⟨nc, st', ?_, ?_, hok'⟩
          · simp [cfLoop, hsb, hval, hres, build_condition, hloop]
          · simp [List.filter_cons, hprod, hproj]

/-- C3: for every request whose global search value is empty, `process` adds no search
predicate — `get_filtered_query` returns its statement unchanged, with the alias
counter untouched — and every successful response satisfies
`recordsFiltered = recordsTotal`: both are the backend count of the same base
statement. -/
theorem c3_empty_search_keeps_counts_equal {ρ : Type} (env : Env) (root : Str)
    (base : Option Stmt) (cnt : Stmt → Nat) (execQ : Stmt → List ρ)
    (rd : DataTablesRequest) (stmt : Stmt) (fr : Nat) (resp : DTResponse ρ)
    (hs : searchValue rd = [])
    (hp : process env root base cnt execQ rd = .ok resp) :
    resp.recordsFiltered = resp.recordsTotal ∧
    get_filtered_query env root stmt rd fr = .ok (stmt, fr) := by
  refine ⟨?_, get_filtered_query_empty env root stmt rd fr hs⟩
  simp only [process] at hp
  simp only [get_filtered_query_empty env root (get_query root base) rd 0 hs] at hp
  cases ho : apply_ordering env root (get_query root base) rd 0 with
  | error e =>
    rw [ho] at hp
    simp at hp
  | ok pr =>
    obtain ⟨stmt2, fr2⟩ := pr
    rw [ho] at hp
    simp only [] at hp
    injection hp with hp
    subst hp
    rfl

/-- Witness for C3 at a concrete request: `reqColumnFilter` has an empty global search
value, `process` succeeds, and the two record counts of the response agree. -/
theorem c3_witness :
    searchValue reqColumnFilter = [] ∧
    process envStudent (str "Student") none (fun _ => 3) (fun s => [s]) reqColumnFilter =
      .ok ⟨1, 3, 3, [{ fromModel := str "Student", off := some 0, lim := some 10 }]⟩ ∧
    (3 : Nat) = 3 ∧
    get_filtered_query envStudent (str "Student") (Stmt.select (str "Student"))
      reqColumnFilter 0 = .ok (Stmt.select (str "Student"), 0) :=
  ⟨rfl, rfl,
    (c3_empty_search_keeps_counts_equal envStudent (str "Student") none (fun _ => 3)
      (fun s => [s]) reqColumnFilter (Stmt.select (str "Student")) 0
      ⟨1, 3, 3, [{ fromModel := str "Student", off := some 0, lim := some 10 }]⟩
      rfl rfl).1,
    (c3_empty_search_keeps_counts_equal envStudent (str "Student") none (fun _ => 3)
      (fun s => [s]) reqColumnFilter (Stmt.select (str "Student")) 0
      ⟨1, 3, 3, [{ fromModel := str "Student", off := some 0, lim := some 10 }]⟩
      rfl rfl).2⟩

/-- C6: a column path with a segment that names no known relation (non-final segment) or
no known attribute (final segment) raises `InvalidColumnError` carrying the offending
path and aborts the whole `process` call; since the error propagates before any statement
is returned, no filter is partially applied.  Part one: a failing searchable column
under a nonempty global search.  Part two: a failing order-key column under an empty
global search (all keys in range with valid directions). -/
theorem c6_invalid_path_aborts_process {ρ : Type} (env : Env) (root : Str)
    (base : Option Stmt) (cnt : Stmt → Nat) (execQ : Stmt → List ρ)
    (rd : DataTablesRequest) :
    (searchValue rd ≠ [] →
      (∃ c ∈ rd.columns, c.searchable = true ∧ specResolve env root c.name = none) →
      ∃ p, process env root base cnt execQ rd = .error (.invalidColumn p) ∧
        ∃ c ∈ rd.columns, c.searchable = true ∧ c.name = p ∧
          specResolve env root p = none) ∧
    (searchValue rd = [] →
      (∀ o ∈ rd.order, orderKeyDirOk rd.columns o = true) →
      (∃ o ∈ rd.order, orderKeyResolves env root rd.columns o = false) →
      ∃ p, process env root base cnt execQ rd = .error (.invalidColumn p) ∧
        ∃ o ∈ rd.order, ∃ col, rd.columns[o.column]? = some col ∧ col.name = p ∧
          specResolve env root col.name = none) := by
  constructor
  · intro hs hbad
    obtain ⟨p, hgfq, hw⟩ :=
      get_filtered_query_error env root (get_query root base) rd 0 hs hbad
    refine ⟨p, ?_, hw⟩
    simp only [process, hgfq]
  · intro hs hdir hbad
    have hord : rd.order ≠ [] := by
      obtain ⟨o, hm, -⟩ := hbad
      intro h
      rw [h] at hm
      simp at hm
    obtain ⟨p, hao, hw⟩ :=
      aoLoop_error_invalid env root rd.columns rd.order (get_query root base) 0 hdir hbad
    refine ⟨p, ?_, hw⟩
    simp only [process]
    simp only [get_filtered_query_empty env root (get_query root base) rd 0 hs]
    simp [apply_ordering, hord, hao]

/-- Witness for C6 at the spec's example: the path `"missing.field"` with `missing` not
a known relation aborts `process` with `InvalidColumnError`. -/
theorem c6_witness :
    searchValue reqMissingPath ≠ [] ∧
    (∃ c ∈ reqMissingPath.columns, c.searchable = true ∧
      specResolve envBook (str "Book") c.name = none) ∧
    (∃ p, process envBook (str "Book") none (fun _ => 0) (fun s => [s]) reqMissingPath =
      .error (.invalidColumn p) ∧
      ∃ c ∈ reqMissingPath.columns, c.searchable = true ∧ c.name = p ∧
        specResolve envBook (str "Book") p = none) :=
  ⟨by decide, by decide,
    (c6_invalid_path_aborts_process envBook (str "Book") none (fun _ => 0)
      (fun s => [s]) reqMissingPath).1 (by decide) (by decide)⟩

/-- C7: an order key whose direction is neither `asc` nor `desc`, while every order key's
column resolves, makes `apply_ordering` abort with `ConfigurationError` — no ordering is
applied for that key since no statement is returned — and `process` (reached here with
an empty global search) propagates the abort. -/
theorem c7_bad_direction_aborts {ρ : Type} (env : Env) (root : Str) (base : Option Stmt)
    (cnt : Stmt → Nat) (execQ : Stmt → List ρ) (rd : DataTablesRequest) (stmt : Stmt)
    (fr : Nat)
    (hall : ∀ o ∈ rd.order, orderKeyResolves env root rd.columns o = true)
    (hbad : ∃ o ∈ rd.order, o.dir ≠ str "asc" ∧ o.dir ≠ str "desc") :
    apply_ordering env root stmt rd fr = .error .configurationError ∧
    (searchValue rd = [] →
      process env root base cnt execQ rd = .error .configurationError) := by
  have hord : rd.order ≠ [] := by
    obtain ⟨o, hm, -⟩ := hbad
    intro h
    rw [h] at hm
    simp at hm
  constructor
  · have hao := aoLoop_error_config env root rd.columns rd.order stmt fr hall hbad
    simp [apply_ordering, hord, hao]
  · intro hs
    have hao0 :=
      aoLoop_error_config env root rd.columns rd.order (get_query root base) 0 hall hbad
    simp only [process]
    simp only [get_filtered_query_empty env root (get_query root base) rd 0 hs]
    simp [apply_ordering, hord, hao0]

/-- Witness for C7: direction `"up"` on a resolvable ordered column aborts both
`apply_ordering` and `process` with `ConfigurationError`. -/
theorem c7_witness :
    (∀ o ∈ reqBadDir.order,
      orderKeyResolves envStudent (str "Student") reqBadDir.columns o = true) ∧
    (∃ o ∈ reqBadDir.order, o.dir ≠ str "asc" ∧ o.dir ≠ str "desc") ∧
    apply_ordering envStudent (str "Student") (Stmt.select (str "Student")) reqBadDir 0 =
      .error .configurationError ∧
    process envStudent (str "Student") none (fun _ => 0) (fun s => ([s] : List Stmt))
      reqBadDir = .error .configurationError :=
  ⟨by decide, by decide,
    (c7_bad_direction_aborts envStudent (str "Student") none (fun _ => 0)
      (fun s => ([s] : List Stmt)) reqBadDir (Stmt.select (str "Student")) 0
      (by decide) (by decide)).1,
    (c7_bad_direction_aborts envStudent (str "Student") none (fun _ => 0)
      (fun s => ([s] : List Stmt)) reqBadDir (Stmt.select (str "Student")) 0
      (by decide) (by decide)).2 rfl⟩

/-- C10: the executed statement carries `offset = start` and `limit = length` verbatim
(zero and negative lengths included — they are not reinterpreted as "all rows"), and a
request omitting `length` gets the pydantic default 10.  Execution is instantiated with
`fun s => [s]` so the executed statement is visible as the response data. -/
theorem c10_pagination_verbatim (env : Env) (root : Str) (base : Option Stmt)
    (cnt : Stmt → Nat) (rd : DataTablesRequest) (resp : DTResponse Stmt) (s : Stmt)
    (hp : process env root base cnt (fun s => [s]) rd = .ok resp)
    (hd : resp.data = [s]) :
    s.off = some rd.start ∧ s.lim = some rd.length ∧
    ({} : DataTablesRequest).length = 10 := by
  simp only [process] at hp
  cases hg : get_filtered_query env root (get_query root base) rd 0 with
  | error e =>
    simp only [hg] at hp
    exact absurd hp (by simp)
  | ok pr =>
    obtain ⟨stmt1, fr1⟩ := pr
    simp only [hg] at hp
    cases ho : apply_ordering env root stmt1 rd fr1 with
    | error e =>
      simp only [ho] at hp
      exact absurd hp (by simp)
    | ok pr2 =>
      obtain ⟨stmt2, fr2⟩ := pr2
      simp only [ho] at hp
      injection hp with hp
      subst hp
      simp only [] at hd
      injection hd with hd
      subst hd
      exact ⟨rfl, rfl, rfl⟩

/-- Witness for C10: `start = 7` and the negative `length = -3` are passed through to
the executed statement unchanged. -/
theorem c10_witness :
    process envStudent (str "Student") none (fun _ => 0) (fun s => [s]) reqPagination =
      .ok ⟨2, 0, 0, [stmtPagination]⟩ ∧
    (stmtPagination.off = some reqPagination.start ∧
      stmtPagination.lim = some reqPagination.length ∧
      ({} : DataTablesRequest).length = 10) :=
  ⟨rfl, c10_pagination_verbatim envStudent (str "Student") none (fun _ => 0)
    reqPagination ⟨2, 0, 0, [stmtPagination]⟩ stmtPagination rfl rfl⟩

/-- C2 (amended): within ONE resolution pass — one shared pair of `joins` /
`aliased_models` dictionaries — path-prefix aliasing is deduplicated: re-resolving the
same path from the state produced by a successful resolution returns the same attribute
(in particular the same alias for every prefix) and leaves the state unchanged, adding
no join.  Across the passes of one `process` call the dictionaries are rebuilt and the
same prefix receives a fresh alias and an additional join; see the counterexample. -/
theorem c2_alias_dedup_within_pass (env : Env) (model path : Str) (st : ResolveState)
    (a : ColumnAttr) (st' : ResolveState)
    (h : resolve_column env model path st = some (a, st')) :
    resolve_column env model path st' = some (a, st') :=
  resolveParts_idem env (splitOnChar '.' path) [] model none st a st' h

/-- Witness for C2 (amended): resolving `author.name` twice within one pass yields alias
0 both times and the second resolution changes nothing. -/
theorem c2_witness :
    resolve_column envBook (str "Book") (str "author.name") { fresh := 0 } =
      some (⟨str "Author", some 0, str "name", ColKind.text⟩, stAuthorOnce) ∧
    resolve_column envBook (str "Book") (str "author.name") stAuthorOnce =
      some (⟨str "Author", some 0, str "name", ColKind.text⟩, stAuthorOnce) :=
  ⟨rfl, c2_alias_dedup_within_pass envBook (str "Book") (str "author.name")
    { fresh := 0 } ⟨str "Author", some 0, str "name", ColKind.text⟩ stAuthorOnce rfl⟩

/-- Counterexample to C2 as stated: across the phases of one `process` call the prefix
`author` is resolved once in the global-search pass and once in the ordering pass,
producing two different aliases (0 and 1) and two joins for the same prefix in the
executed statement — not one alias and at most one join per prefix. -/
theorem c2_counterexample :
    process envBook (str "Book") none (fun _ => 0) (fun s => [s]) reqJoinTwice =
      .ok ⟨1, 0, 0, [stmtJoinTwice]⟩ ∧
    stmtJoinTwice.joins.map (fun j => j.rel) = [str "author", str "author"] ∧
    stmtJoinTwice.joins.map (fun j => j.aliasId) = [0, 1] :=
  ⟨rfl, rfl, rfl⟩

/-- C1 (amended): `process` applies no per-column filters (see the counterexample); the
standalone `utils.column_filter` implements them: for every searchable column with a
nonempty trimmed `columnFilter` value (all such columns resolving), it builds one
predicate from that column's filter value — with the hardcoded `contains` mode — and
combines all collected predicates into one `and_` where-clause appended to the
statement's. -/
theorem c1_column_filter_ands (env : Env) (root : Str) (stmt : Stmt)
    (cols : List DataTablesColumn) (fr : Nat)
    (h : ∀ col ∈ cols, cfFilterOk env root col = true) :
    ∃ conds s' fr', column_filter env stmt cols root fr = .ok (s', fr') ∧
      conds.map (fun c => (condName c, condPat c)) =
        (cols.filter (fun col => cfProduces env root col)).map
          (fun col => cfSpecCond env root col) ∧
      s'.wheres = stmt.wheres ++
        (if conds.isEmpty then [] else [Condition.andc conds]) := by
  obtain ⟨nc, st', hloop, hproj, -⟩ := cfLoop_ok env root cols [] { fresh := fr }
    (StOk_start env root [] fr) h
  refine ⟨nc, if nc.isEmpty then apply_joins stmt st'.joins
    else (apply_joins stmt st'.joins).addWhere (.andc nc), st'.fresh, ?_, hproj, ?_⟩
  · simp [column_filter, hloop]
  · by_cases hnc : nc.isEmpty
    · simp [hnc, apply_joins_wheres]
    · simp [hnc, Stmt.addWhere, apply_joins_wheres]

/-- Witness for C1 (amended): one searchable column with value `"bob"` yields a single
`and_`-combined ilike predicate in `column_filter`'s output. -/
theorem c1_witness :
    (∀ col ∈ [colBobEquals], cfFilterOk envStudent (str "Student") col = true) ∧
    (∃ conds s' fr',
      column_filter envStudent (Stmt.select (str "Student")) [colBobEquals]
        (str "Student") 0 = .ok (s', fr') ∧
      conds.map (fun c => (condName c, condPat c)) =
        ([colBobEquals].filter
          (fun col => cfProduces envStudent (str "Student") col)).map
          (fun col => cfSpecCond envStudent (str "Student") col) ∧
      s'.wheres = (Stmt.select (str "Student")).wheres ++
        (if conds.isEmpty then [] else [Condition.andc conds])) :=
  ⟨by decide, c1_column_filter_ands envStudent (str "Student")
    (Stmt.select (str "Student")) [colBobEquals] 0 (by decide)⟩

/-- Counterexample to C1 as stated: `process` never applies per-column filters.  For
`reqColumnFilter` — whose only column is searchable with the nonempty filter value
`"bob"` — the executed statement carries no predicate at all and `recordsFiltered`
equals the unfiltered count. -/
theorem c1_counterexample :
    process envStudent (str "Student") none (fun _ => 3) (fun s => [s]) reqColumnFilter =
      .ok ⟨1, 3, 3, [{ fromModel := str "Student", off := some 0, lim := some 10 }]⟩ ∧
    reqColumnFilter.columns.map (fun c => cfValue c) = [str "bob"] ∧
    ({ fromModel := str "Student", off := some 0, lim := some 10 } : Stmt).wheres = [] :=
  ⟨rfl, rfl, rfl⟩

/-- C4 (amended): `utils.order_column` silently skips order keys whose column is not
orderable (or has an empty name) and applies the remaining keys in their original
relative order: the resulting order-by list extends the statement's by exactly the kept
keys' (column, direction) pairs in sequence.  `core.apply_ordering`, which `process`
actually calls, never consults `orderable`; see the counterexample. -/
theorem c4_order_column_skips_non_orderable (env : Env) (root : Str) (stmt : Stmt)
    (rd : DataTablesRequest) (fr : Nat)
    (h : ∀ o ∈ rd.order, orderKeyOk env root rd.columns o = true) :
    ∃ s' fr', order_column env root stmt rd fr = .ok (s', fr') ∧
      s'.orders.map orderProj = stmt.orders.map orderProj ++
        (rd.order.filter (fun o => orderKeyKept rd.columns o)).map
          (fun o => orderKeyProj rd.columns o) := by
  by_cases hord : rd.order = []
  · exact ⟨stmt, fr, by simp [order_column, hord], by simp [hord]⟩
  · obtain ⟨s', fr', hloop, horders⟩ := ocLoop_ok env root rd.columns rd.order stmt fr h
    exact ⟨s', fr', by simp [order_column, hord, hloop], horders⟩

/-- Witness for C4 (amended): of two order keys, the one on the non-orderable `name`
column is skipped and the descending key on the orderable `age` column is applied. -/
theorem c4_witness :
    (∀ o ∈ reqMixedOrder.order,
      orderKeyOk envStudent (str "Student") reqMixedOrder.columns o = true) ∧
    (∃ s' fr', order_column envStudent (str "Student") (Stmt.select (str "Student"))
        reqMixedOrder 0 = .ok (s', fr') ∧
      s'.orders.map orderProj =
        (Stmt.select (str "Student")).orders.map orderProj ++
        (reqMixedOrder.order.filter
          (fun o => orderKeyKept reqMixedOrder.columns o)).map
          (fun o => orderKeyProj reqMixedOrder.columns o)) :=
  ⟨by decide, c4_order_column_skips_non_orderable envStudent (str "Student")
    (Stmt.select (str "Student")) reqMixedOrder 0 (by decide)⟩

/-- Counterexample to C4 as stated: `core.apply_ordering` (the ordering function of the
`process` pipeline) applies an order key even though its column has
`orderable = false`: for `reqNonOrderable` the resulting statement orders by the
non-orderable `age` column instead of skipping the key. -/
theorem c4_counterexample :
    apply_ordering envStudent (str "Student") (Stmt.select (str "Student"))
      reqNonOrderable 0 = .ok (stmtOrderedAnyway, 0) ∧
    stmtOrderedAnyway.orders.map orderProj = [(str "age", true)] ∧
    reqNonOrderable.columns.map (fun c => c.orderable) = [false] :=
  ⟨rfl, rfl, rfl⟩

/-- C5 at the failing input: `column_filter` ignores the column's declared `equals`
match mode and builds the hardcoded-`contains` predicate `name ILIKE` with pattern
`%ab%` instead of an equality predicate. -/
theorem c5_declared_matchmode_ignored :
    colEqualsMode.search.matchMode = some MatchMode.equals ∧
    column_filter envStudent (Stmt.select (str "Student")) [colEqualsMode]
      (str "Student") 0 = .ok (stmtEqualsFiltered, 0) :=
  ⟨rfl, rfl⟩

/-- C8: on an integer column, `build_condition` yields a predicate exactly when the raw
value parses as a whole number and the match mode is `equals` or `notEquals`; an
unparseable value or any other match mode yields `none` — the filter is silently
dropped, no error is raised. -/
theorem c8_integer_filter_parse_and_modes (a : ColumnAttr) (m : MatchMode) (v : Str)
    (h : a.kind = ColKind.integer) :
    (build_condition a m v).isSome = ((pyInt v).isSome &&
      (decide (m = MatchMode.equals) || decide (m = MatchMode.notEquals))) := by
  cases hpi : pyInt v <;> cases m <;> simp [build_condition, h, hpi]

/-- Witness for C8: on an integer column, mode `contains` with the parseable value
`"42"` yields no predicate. -/
theorem c8_witness :
    (⟨str "Student", none, str "age", ColKind.integer⟩ : ColumnAttr).kind =
      ColKind.integer ∧
    (build_condition ⟨str "Student", none, str "age", ColKind.integer⟩
      MatchMode.contains (str "42")).isSome = ((pyInt (str "42")).isSome &&
      (decide (MatchMode.contains = MatchMode.equals) ||
        decide (MatchMode.contains = MatchMode.notEquals))) :=
  ⟨rfl, c8_integer_filter_parse_and_modes ⟨str "Student", none, str "age",
    ColKind.integer⟩ MatchMode.contains (str "42") rfl⟩

/-- C9: on a temporal column every match mode yields a predicate that casts the
attribute to a date-only representation and then to a string, compared against the raw
value truncated at the first `T`; the compared value therefore contains no `T`, so a
full timestamp string filters by its date portion. -/
theorem c9_temporal_day_granularity (a : ColumnAttr) (m : MatchMode) (v : Str)
    (h : a.kind = ColKind.temporal) :
    build_condition a m v = some (temporalCondSpec a m (pyBeforeT v)) ∧
    ∀ c ∈ pyBeforeT v, c ≠ 'T' := by
  constructor
  · cases m <;> simp [build_condition, temporalCondSpec, h]
  · intro c hc
    simp only [pyBeforeT] at hc
    have := List.mem_takeWhile_imp hc
    simpa using this

/-- Witness for C9: a full timestamp filter value on a temporal column compares the
date-cast attribute against the date portion `2024-01-02`. -/
theorem c9_witness :
    (⟨str "Student", none, str "created", ColKind.temporal⟩ : ColumnAttr).kind =
      ColKind.temporal ∧
    build_condition ⟨str "Student", none, str "created", ColKind.temporal⟩
        MatchMode.equals (str "2024-01-02T15:04:05") =
      some (temporalCondSpec ⟨str "Student", none, str "created", ColKind.temporal⟩
        MatchMode.equals (pyBeforeT (str "2024-01-02T15:04:05"))) ∧
    pyBeforeT (str "2024-01-02T15:04:05") = str "2024-01-02" :=
  ⟨rfl, (c9_temporal_day_granularity ⟨str "Student", none, str "created",
    ColKind.temporal⟩ MatchMode.equals (str "2024-01-02T15:04:05") rfl).1, rfl⟩

end FastapiDatatables
